import Mathlib

/-!
Verification development for the WebtoonColorizer pipeline (colorizer.js).

The pixel-level pipeline is shallowly embedded: bitmaps are functions from
coordinates to RGBA values with explicit width/height, rational arithmetic
replaces JS floating point on the (exactly representable) small fractions the
code uses, and the stateful flood fill and summed-area table of the black
restoration engine are embedded as executable functional programs that are
proved equal to their declarative specifications.
-/

/-- One 8-bit RGBA pixel (channel values are naturals; the embedding never
creates values above 255). -/
structure RGBA where
  r : ℕ
  g : ℕ
  b : ℕ
  a : ℕ
deriving DecidableEq

/-- Opaque pure black, the background/padding colour used throughout. -/
def blackPx : RGBA := ⟨0, 0, 0, 255⟩

/-- Default output slice width (env OUTPUT_WIDTH, default 800). -/
def OUTPUT_W : ℕ := 800

/-- Default output slice height (env OUTPUT_HEIGHT, default 1280). -/
def OUTPUT_H : ℕ := 1280

/-- Split-detection darkness threshold (env DARK_THRESHOLD, default 20). -/
def DARK_THRESHOLD : ℕ := 20

/-- Minimum number of consecutive safe rows for a split point
(env MIN_GAP_HEIGHT, default 30). -/
def MIN_GAP_HEIGHT : ℕ := 30

/-- Fraction of pixels per row allowed to be non-dark (env EDGE_TOLERANCE,
default 0.02). -/
def EDGE_TOLERANCE : ℚ := 2 / 100

/-- Minimum segment height; smaller segments are merged (MIN_SEGMENT_H). -/
def MIN_SEGMENT_H : ℕ := 100

/-- Strict RGB bound for a "true black" pixel in the restoration engine
(BLACK_RESTORE_THRESHOLD). -/
def BLACK_RESTORE_THRESHOLD : ℕ := 5

/-- Strict RGB lower bound for a "white" pixel (WHITE_THRESHOLD). -/
def WHITE_THRESHOLD : ℕ := 250

/-- Radius of the square local-density window (LOCAL_CHECK_RADIUS). -/
def LOCAL_CHECK_RADIUS : ℕ := 16

/-- Minimum local dark density for restoration (LOCAL_DENSITY_MIN). -/
def LOCAL_DENSITY_MIN : ℚ := 70 / 100

/-- Chebyshev radius of the white-pixel search (BUBBLE_SEARCH_RADIUS). -/
def BUBBLE_SEARCH_RADIUS : ℕ := 3

/-- Maximum number of retries of the external call (MAX_RETRIES). -/
def MAX_RETRIES : ℕ := 3

/-! ## Canvas Fitter: pickApiSize and the letterbox round trip -/

/-- The three canvas sizes the external image API accepts. -/
def apiCandidates : List (ℕ × ℕ) := [(1024, 1024), (1024, 1536), (1536, 1024)]

/-- Fit score of one candidate canvas for a w×h segment: aspect-ratio
difference plus a penalty equal to the scale factor when it exceeds 2
(from pickApiSize in colorizer.js). -/
def psScore (w h : ℕ) (c : ℕ × ℕ) : ℚ :=
  let scale : ℚ := min ((c.1 : ℚ) / w) ((c.2 : ℚ) / h)
  let aspectDiff : ℚ := |(c.1 : ℚ) / c.2 - (w : ℚ) / h|
  let upscalePenalty : ℚ := if 2 < scale then scale else 0
  aspectDiff + upscalePenalty

/-- One step of the best-candidate fold: replace the accumulator when the
candidate scores strictly lower (a missing score stands for Infinity). -/
def psStep (w h : ℕ) (acc : (ℕ × ℕ) × Option ℚ) (c : ℕ × ℕ) : (ℕ × ℕ) × Option ℚ :=
  match acc.2 with
  | none => (c, some (psScore w h c))
  | some s => if psScore w h c < s then (c, some (psScore w h c)) else acc

/-- Chooses the API canvas size for a w×h segment (pickApiSize): the candidate
with the minimal score, earlier candidates winning ties. -/
def pickApiSize (w h : ℕ) : ℕ × ℕ :=
  (apiCandidates.foldl (psStep w h) ((1024, 1024), none)).1

/-- JavaScript Math.round on a rational: floor(q + 1/2). -/
def jround (q : ℚ) : ℤ := ⌊q + 1 / 2⌋

/-- The outbound letterbox parameters for a w×h segment: the chosen canvas
(aw, ah) and the scaled size (fitW, fitH) = round(w·scale), round(h·scale)
with scale = min(aw/w, ah/h) (from colorizeSegment). -/
def canvasFit (w h : ℕ) : (ℕ × ℕ) × (ℕ × ℕ) :=
  let c := pickApiSize w h
  let scale : ℚ := min ((c.1 : ℚ) / w) ((c.2 : ℚ) / h)
  (c, ((jround (w * scale)).toNat, (jround (h * scale)).toNat))

/-- Dimension-level model of sharp resize: sharp rejects non-positive
target dimensions. -/
def resizeDims (tw th : ℕ) (_d : ℕ × ℕ) : Option (ℕ × ℕ) :=
  if 0 < tw ∧ 0 < th then some (tw, th) else none

/-- Dimension-level model of sharp extend with right/bottom margins: sharp
rejects negative margins. -/
def extendDims (right bottom : ℤ) (d : ℕ × ℕ) : Option (ℕ × ℕ) :=
  if 0 ≤ right ∧ 0 ≤ bottom then some (d.1 + right.toNat, d.2 + bottom.toNat) else none

/-- Dimension-level model of sharp extract of a (cw × chh) region at the
origin: sharp rejects empty regions and regions leaving the image. -/
def extractDims (cw chh : ℕ) (d : ℕ × ℕ) : Option (ℕ × ℕ) :=
  if 0 < cw ∧ 0 < chh ∧ cw ≤ d.1 ∧ chh ≤ d.2 then some (cw, chh) else none

/-- The Canvas Fitter round trip on a w×h segment: resize to (fitW, fitH),
pad right/bottom to the chosen canvas, then (on the same-size returned
canvas) crop to (fitW, fitH) and resize back to (w, h); none models a sharp
error (from colorizeSegment in colorizer.js). -/
def fitRoundTrip (w h : ℕ) : Option (ℕ × ℕ) :=
  let c := canvasFit w h
  let aw := c.1.1
  let ah := c.1.2
  let fitW := c.2.1
  let fitH := c.2.2
  ((((resizeDims fitW fitH (w, h)).bind
      (extendDims ((aw : ℤ) - fitW) ((ah : ℤ) - fitH))).bind
      (extractDims fitW fitH)).bind
      (resizeDims w h))

/-! ## External-call retry logic (withRetry) and the per-segment step -/

/-- Abstraction of an error thrown by the external service: the optional HTTP
status, and the two message-regex classifications the code performs
(timeout/network-failure wording, and safety/content-policy wording). -/
structure SvcError where
  status : Option ℕ
  msgTimeoutNetwork : Bool
  msgSafety : Bool
deriving DecidableEq

/-- isTransient from colorizer.js: rate limits (429), 5xx server errors,
timeout/network failures and content-safety rejections are transient. -/
def isTransient (e : SvcError) : Bool :=
  (e.status = some 429 : Bool) ||
  (match e.status with
   | some s => decide (500 ≤ s ∧ s < 600)
   | none => false) ||
  e.msgTimeoutNetwork || e.msgSafety

/-- Core loop of withRetry, over the deterministic per-attempt outcomes fn;
returns the successful value (or none) together with the number of attempts
actually made. The fuel argument is MAX_RETRIES + 1 - attempt and the loop
always exits before exhausting it. -/
def withRetryGo {α : Type} (fn : ℕ → Except SvcError α) : ℕ → ℕ → Option α × ℕ
  | 0, _ => (none, 0)
  | fuel + 1, attempt =>
    match fn attempt with
    | .ok v => (some v, 1)
    | .error e =>
      if ¬ isTransient e ∨ attempt = MAX_RETRIES then (none, 1)
      else
        let r := withRetryGo fn fuel (attempt + 1)
        (r.1, r.2 + 1)

/-- withRetry from colorizer.js: attempts 0..MAX_RETRIES; a success returns
the value; a non-transient error or an exhausted retry budget yields none
(the caller then falls back); otherwise the next attempt is made. -/
def withRetry {α : Type} (fn : ℕ → Except SvcError α) : Option α × ℕ :=
  withRetryGo fn (MAX_RETRIES + 1) 0

/-- A segment bitmap: width, height and pixel data. -/
structure Segment where
  w : ℕ
  h : ℕ
  pix : ℕ → ℕ → RGBA

/-- A pixel counts as dark for the content classifier when every RGB channel
is below DARK_THRESHOLD. -/
def classifierDarkPx (p : RGBA) : Prop :=
  p.r < DARK_THRESHOLD ∧ p.g < DARK_THRESHOLD ∧ p.b < DARK_THRESHOLD

instance (p : RGBA) : Decidable (classifierDarkPx p) := by
  unfold classifierDarkPx; exact inferInstance

/-- A pixel counts as bright for the text-on-black test when every RGB
channel exceeds 200. -/
def classifierBrightPx (p : RGBA) : Prop := 200 < p.r ∧ 200 < p.g ∧ 200 < p.b

instance (p : RGBA) : Decidable (classifierBrightPx p) := by
  unfold classifierBrightPx; exact inferInstance

/-- Number of dark pixels of a segment (the darkCount loop of
isBlankSegment). -/
def segDarkCount (s : Segment) : ℕ :=
  ((Finset.range s.h ×ˢ Finset.range s.w).filter
    (fun p => classifierDarkPx (s.pix p.2 p.1))).card

/-- Number of bright pixels among the non-dark ones (the brightCount branch
of isBlankSegment). -/
def segBrightCount (s : Segment) : ℕ :=
  ((Finset.range s.h ×ˢ Finset.range s.w).filter
    (fun p => ¬ classifierDarkPx (s.pix p.2 p.1) ∧ classifierBrightPx (s.pix p.2 p.1))).card

/-- The two short-circuit classifications of the content classifier. -/
inductive BlankReason where
  | blank
  | textOnBlack
deriving DecidableEq

/-- isBlankSegment from colorizer.js: a segment that is at least 98% dark is
blank; one that is at least 85% dark whose non-dark pixels are at least 60%
bright is text-on-black; anything else goes to the external service. -/
def isBlankSegment (s : Segment) : Option BlankReason :=
  let total := s.w * s.h
  let darkCount := segDarkCount s
  let nonDark := total - darkCount
  let darkFrac : ℚ := (darkCount : ℚ) / total
  let brightFrac : ℚ := if 0 < nonDark then (segBrightCount s : ℚ) / nonDark else 0
  if 98 / 100 ≤ darkFrac then some .blank
  else if 85 / 100 ≤ darkFrac ∧ 0 < nonDark ∧ 6 / 10 ≤ brightFrac then some .textOnBlack
  else none

/-- The per-segment disposition step of main (colorizer.js, the loop over
segments): blank segments are passed through with no external call; otherwise
the call is retried, and on failure the segment falls back to its
pre-colorization bitmap. Returns the chosen bitmap, the number of external
attempts made, and whether the segment fell back. -/
def segmentStep (seg : Segment) (svc : ℕ → Except SvcError Segment) :
    Segment × ℕ × Bool :=
  if (isBlankSegment seg).isSome then (seg, 0, false)
  else
    match withRetry svc with
    | (none, n) => (seg, n, true)
    | (some v, n) => (v, n, false)

/-! ## Reassembly and re-slicing -/

/-- Output dimensions of each re-sliced output slice (the reslice loop of
colorizer.js): walking the strip with the original input slice heights from a
running top offset, stopping when the strip is exhausted; a slice is padded
to its recorded height and finally resized to OUTPUT_W×OUTPUT_H when the
working dimensions differ. -/
def resliceDims (stripH stripW : ℕ) : ℕ → List ℕ → List (ℕ × ℕ)
  | _, [] => []
  | top, sliceH :: rest =>
    if stripH ≤ top then []
    else
      (if stripW ≠ OUTPUT_W ∨ sliceH ≠ OUTPUT_H then (OUTPUT_W, OUTPUT_H)
       else (stripW, sliceH)) :: resliceDims stripH stripW (top + sliceH) rest

/-- Content-level model of the extraction-and-padding part of the reslice
loop, before the final output resize: each emitted slice records its top
offset, its recorded height, and its pixel content, where rows beyond the
extracted region are opaque black. -/
def resliceSlices (strip : ℕ → ℕ → RGBA) (stripH : ℕ) :
    ℕ → List ℕ → List (ℕ × ℕ × (ℕ → ℕ → RGBA))
  | _, [] => []
  | top, sliceH :: rest =>
    if stripH ≤ top then []
    else
      (top, sliceH, fun y x =>
        if y < min sliceH (stripH - top) then strip (top + y) x else blackPx) ::
      resliceSlices strip stripH (top + sliceH) rest

/-! ## Segmenter: splitAtPoints with the merge pass -/

/-- A segment interval of the assembled strip, as manipulated by
splitAtPoints: start row, end row, and stored height. -/
structure Seg where
  startY : ℕ
  endY : ℕ
  height : ℕ
deriving DecidableEq

/-- The merge pass of splitAtPoints, modelling the JavaScript
Array.prototype.filter with its callback mutating the live array: element i is
kept when its current height is at least MIN_SEGMENT_H; otherwise it is merged
into the following element (extending its start upward) or, for the final
element, into the preceding one (extending its end downward). Returns the
final array together with the keep flags for indices from i on. -/
def mergeLoop : ℕ → List Seg → ℕ → List Seg × List Bool
  | 0, arr, _ => (arr, [])
  | fuel + 1, arr, i =>
    if hi : i < arr.length then
      let seg := arr.get ⟨i, hi⟩
      if MIN_SEGMENT_H ≤ seg.height then
        let r := mergeLoop fuel arr (i + 1)
        (r.1, true :: r.2)
      else if h2 : i + 1 < arr.length then
        let nxt := arr.get ⟨i + 1, h2⟩
        let arr2 := arr.set (i + 1) ⟨seg.startY, nxt.endY, nxt.endY - seg.startY⟩
        let r := mergeLoop fuel arr2 (i + 1)
        (r.1, false :: r.2)
      else if 0 < i then
        let prv := arr.get ⟨i - 1, by omega⟩
        let arr2 := arr.set (i - 1) ⟨prv.startY, seg.endY, seg.endY - prv.startY⟩
        let r := mergeLoop fuel arr2 (i + 1)
        (r.1, false :: r.2)
      else
        let r := mergeLoop fuel arr (i + 1)
        (r.1, false :: r.2)
    else (arr, [])

/-- splitAtPoints from colorizer.js (interval level): build boundaries
[0, cut1, ..., totalH], form the positive-height segments, then run the merge
pass; the emitted segments are the elements of the final array whose keep
flag is true. -/
def splitAtPoints (totalH : ℕ) (cuts : List ℕ) : List Seg :=
  let bounds := 0 :: cuts ++ [totalH]
  let raw := (bounds.zip bounds.tail).filterMap
    (fun p => if 0 < p.2 - p.1 then some ⟨p.1, p.2, p.2 - p.1⟩ else none)
  let r := mergeLoop raw.length raw 0
  (r.1.zip r.2).filterMap (fun p => if p.2 then some p.1 else none)

/-! ## Split-Point Detector -/

/-- Number of dark pixels of row y (the per-row loop of
detectSafeSplitPoints). -/
def rowDarkCount (w : ℕ) (pix : ℕ → ℕ → RGBA) (y : ℕ) : ℕ :=
  ((List.range w).filter (fun x => decide (classifierDarkPx (pix x y)))).length

/-- A row is safe when the fraction of its dark pixels is at least
1 − EDGE_TOLERANCE. -/
def isSafeRow (w : ℕ) (pix : ℕ → ℕ → RGBA) (y : ℕ) : Bool :=
  decide (1 - EDGE_TOLERANCE ≤ (rowDarkCount w pix y : ℚ) / w)

/-- The (sorted) list of safe row indices of a w×h bitmap. -/
def safeRowsList (w h : ℕ) (pix : ℕ → ℕ → RGBA) : List ℕ :=
  (List.range h).filter (isSafeRow w pix)

/-- Collapses the tail of a sorted row list into maximal runs, carrying the
current run's start and last element (the gapStart tracking of
detectSafeSplitPoints). -/
def runsGo : ℕ → ℕ → List ℕ → List (ℕ × ℕ)
  | start, cur, [] => [(start, cur)]
  | start, cur, y :: rest =>
    if y = cur + 1 then runsGo start y rest
    else (start, cur) :: runsGo y y rest

/-- Maximal runs of consecutive values of a sorted list. -/
def groupRuns : List ℕ → List (ℕ × ℕ)
  | [] => []
  | y :: rest => runsGo y y rest

/-- A detected split candidate: the run bounds, its midpoint cut row, and the
band height. -/
structure Gap where
  startRow : ℕ
  endRow : ℕ
  midPoint : ℕ
  height : ℕ
deriving DecidableEq

/-- detectSafeSplitPoints from colorizer.js: maximal runs of safe rows of
height at least MIN_GAP_HEIGHT, cut at the integer midpoint. -/
def detectSafeSplitPoints (w h : ℕ) (pix : ℕ → ℕ → RGBA) : List Gap :=
  (groupRuns (safeRowsList w h pix)).filterMap
    (fun p =>
      if MIN_GAP_HEIGHT ≤ p.2 - p.1 + 1 then
        some ⟨p.1, p.2, (p.1 + p.2) / 2, p.2 - p.1 + 1⟩
      else none)

/-! ## Black Restoration Engine -/

/-- A pixel is "true black" when every RGB channel is strictly below
BLACK_RESTORE_THRESHOLD. -/
def trueBlackPx (p : RGBA) : Prop :=
  p.r < BLACK_RESTORE_THRESHOLD ∧ p.g < BLACK_RESTORE_THRESHOLD ∧ p.b < BLACK_RESTORE_THRESHOLD

instance (p : RGBA) : Decidable (trueBlackPx p) := by
  unfold trueBlackPx; exact inferInstance

/-- A pixel is "white" when every RGB channel is strictly above
WHITE_THRESHOLD. -/
def whitePx (p : RGBA) : Prop :=
  WHITE_THRESHOLD < p.r ∧ WHITE_THRESHOLD < p.g ∧ WHITE_THRESHOLD < p.b

instance (p : RGBA) : Decidable (whitePx p) := by
  unfold whitePx; exact inferInstance

/-- The dark binary map of the original segment, indexed by (x, y). -/
def darkAt (orig : ℕ → ℕ → RGBA) (x y : ℕ) : Bool := decide (trueBlackPx (orig x y))

/-- The dark binary map on flat indices idx = y·w + x, as the flood fill
addresses pixels. -/
def darkIdx (w : ℕ) (orig : ℕ → ℕ → RGBA) (idx : ℕ) : Bool :=
  darkAt orig (idx % w) (idx / w)

/-- The summed-area table of the dark map (the sat array of restoreBlacks):
satF d x y holds the number of dark pixels with coordinates below (x, y). -/
def satF (d : ℕ → ℕ → Bool) : ℕ → ℕ → ℤ
  | 0, _ => 0
  | _ + 1, 0 => 0
  | x + 1, y + 1 =>
    (if d x y then 1 else 0) + satF d (x + 1) y + satF d x (y + 1) - satF d x y
termination_by x y => x + y

/-- Declarative rectangle count: the number of dark pixels in
[0, x) × [0, y), as a sum of indicators. -/
def countRect (d : ℕ → ℕ → Bool) (x y : ℕ) : ℤ :=
  ∑ i ∈ Finset.range x, ∑ j ∈ Finset.range y, (if d i j then (1 : ℤ) else 0)

/-- Clamped local window around (cx, cy): x1 and y1 are clamped at 0 (by
truncated subtraction), x2 and y2 at the image edge. -/
def localWindow (w h cx cy : ℕ) : ℕ × ℕ × ℕ × ℕ :=
  (cx - LOCAL_CHECK_RADIUS, cy - LOCAL_CHECK_RADIUS,
   min (w - 1) (cx + LOCAL_CHECK_RADIUS), min (h - 1) (cy + LOCAL_CHECK_RADIUS))

/-- getLocalDensity from restoreBlacks: the dark fraction of the clamped
(2·radius+1)-square window around (cx, cy), computed with four summed-area
table lookups. -/
def localDensity (w h : ℕ) (orig : ℕ → ℕ → RGBA) (cx cy : ℕ) : ℚ :=
  let lw := localWindow w h cx cy
  let x1 := lw.1
  let y1 := lw.2.1
  let x2 := lw.2.2.1
  let y2 := lw.2.2.2
  let blockSize := (x2 - x1 + 1) * (y2 - y1 + 1)
  let d := darkAt orig
  let darkCount := satF d (x2 + 1) (y2 + 1) - satF d (x2 + 1) y1 - satF d x1 (y2 + 1) + satF d x1 y1
  (darkCount : ℚ) / blockSize

/-- Declarative local density: the dark fraction of the same clamped window,
counted directly. -/
def specLocalDensity (w h : ℕ) (orig : ℕ → ℕ → RGBA) (cx cy : ℕ) : ℚ :=
  let lw := localWindow w h cx cy
  let x1 := lw.1
  let y1 := lw.2.1
  let x2 := lw.2.2.1
  let y2 := lw.2.2.2
  let darkCount := ((Finset.Ico x1 (x2 + 1) ×ˢ Finset.Ico y1 (y2 + 1)).filter
    (fun p => darkAt orig p.1 p.2 = true)).card
  (darkCount : ℚ) / (((x2 - x1 + 1) * (y2 - y1 + 1) : ℕ) : ℚ)

/-- The 4-neighbourhood of a flat index, guarded exactly as the flood fill
of restoreBlacks guards it. -/
def nbrsIdx (w h idx : ℕ) : List ℕ :=
  (if 0 < idx % w then [idx - 1] else []) ++
  (if idx % w < w - 1 then [idx + 1] else []) ++
  (if 0 < idx / w then [idx - w] else []) ++
  (if idx / w < h - 1 then [idx + w] else [])

/-- Whether a flat index lies on the image border. -/
def isBorderIdx (w h idx : ℕ) : Prop :=
  idx % w = 0 ∨ idx % w = w - 1 ∨ idx / w = 0 ∨ idx / w = h - 1

instance (w h idx : ℕ) : Decidable (isBorderIdx w h idx) := by
  unfold isBorderIdx; exact inferInstance

/-- The flood-fill seeds: all dark pixels on the image border. -/
def ecSeeds (w h : ℕ) (d : ℕ → Bool) : Finset ℕ :=
  (Finset.range (w * h)).filter (fun i => isBorderIdx w h i ∧ d i = true)

/-- One saturation step of the flood fill: additionally mark every dark pixel
with an already-marked 4-neighbour. -/
def ecStep (w h : ℕ) (d : ℕ → Bool) (s : Finset ℕ) : Finset ℕ :=
  s ∪ (Finset.range (w * h)).filter (fun i => d i = true ∧ ∃ j ∈ nbrsIdx w h i, j ∈ s)

/-- The set of edge-connected dark pixels computed by the flood fill of
restoreBlacks: the saturation step iterated to its fixpoint (w·h steps
suffice). -/
def edgeSet (w h : ℕ) (d : ℕ → Bool) : Finset ℕ :=
  (ecStep w h d)^[w * h] (ecSeeds w h d)

/-- Declarative edge connectivity: a dark pixel on the border, or a dark
pixel 4-adjacent to an edge-connected one — i.e. a pixel 4-connected to the
image border through dark pixels. -/
inductive EdgeConn (w h : ℕ) (d : ℕ → Bool) : ℕ → Prop where
  | base (i : ℕ) : i < w * h → isBorderIdx w h i → d i = true → EdgeConn w h d i
  | step (i j : ℕ) : EdgeConn w h d j → i < w * h → d i = true →
      j ∈ nbrsIdx w h i → EdgeConn w h d i

/-- isNearWhite from restoreBlacks: some in-bounds pixel within Chebyshev
distance BUBBLE_SEARCH_RADIUS of (cx, cy) is white. -/
def isNearWhite (w h : ℕ) (orig : ℕ → ℕ → RGBA) (cx cy : ℕ) : Prop :=
  ∃ dy ∈ Finset.Icc (-(BUBBLE_SEARCH_RADIUS : ℤ)) (BUBBLE_SEARCH_RADIUS : ℤ),
    ∃ dx ∈ Finset.Icc (-(BUBBLE_SEARCH_RADIUS : ℤ)) (BUBBLE_SEARCH_RADIUS : ℤ),
      0 ≤ (cx : ℤ) + dx ∧ (cx : ℤ) + dx < (w : ℤ) ∧
      0 ≤ (cy : ℤ) + dy ∧ (cy : ℤ) + dy < (h : ℤ) ∧
      whitePx (orig ((cx : ℤ) + dx).toNat ((cy : ℤ) + dy).toNat)

instance (w h : ℕ) (orig : ℕ → ℕ → RGBA) (cx cy : ℕ) :
    Decidable (isNearWhite w h orig cx cy) := by
  unfold isNearWhite; exact inferInstance

/-- The restoration test applied to pixel (x, y) by the final loop of
restoreBlacks: dark in the original, locally dense (via the summed-area
table), and edge-connected (via the flood fill) or near a white pixel. -/
def restoreCond (w h : ℕ) (orig : ℕ → ℕ → RGBA) (x y : ℕ) : Prop :=
  darkAt orig x y = true ∧
  LOCAL_DENSITY_MIN ≤ localDensity w h orig x y ∧
  ((y * w + x) ∈ edgeSet w h (darkIdx w orig) ∨ isNearWhite w h orig x y)

instance (w h : ℕ) (orig : ℕ → ℕ → RGBA) (x y : ℕ) :
    Decidable (restoreCond w h orig x y) := by
  unfold restoreCond; exact inferInstance

/-- restoreBlacks from colorizer.js on a pair of equal-dimension bitmaps:
pixels inside the image that pass the restoration test become pure opaque
black; every other pixel keeps the colorized value. -/
def restoreBlacks (w h : ℕ) (orig col : ℕ → ℕ → RGBA) : ℕ → ℕ → RGBA :=
  fun x y =>
    if x < w ∧ y < h ∧ restoreCond w h orig x y then blackPx else col x y

/-- The declarative restoration contract from the specification: true-black
in the original, local dark density at least 0.70 (counted directly over the
clamped window), and 4-connected to the border through dark pixels or within
the bubble-search radius of a white pixel. -/
def specRestoreCond (w h : ℕ) (orig : ℕ → ℕ → RGBA) (x y : ℕ) : Prop :=
  trueBlackPx (orig x y) ∧
  LOCAL_DENSITY_MIN ≤ specLocalDensity w h orig x y ∧
  (EdgeConn w h (darkIdx w orig) (y * w + x) ∨ isNearWhite w h orig x y)

/-! ### Buffer-level model of restoreBlacks for the frame property

The JavaScript function reads the two decoded input buffers, copies the
colorized one (Buffer.from), and writes corrections only into that copy. The
heap model makes the buffer identities explicit: a heap is a list of byte
buffers, and the embedded function allocates the copy and addresses every
write to it. -/

/-- A heap of raw byte buffers, addressed by position. -/
abbrev BufHeap := List (List ℕ)

/-- Writes one byte at offset off of the buffer at address a. -/
def heapWrite (hp : BufHeap) (a off v : ℕ) : BufHeap :=
  hp.set a ((hp.getD a []).set off v)

/-- Reads the RGBA pixel (x, y) out of a raw buffer with the given width and
channel count (missing bytes read as 0). -/
def bufPix (b : List ℕ) (w ch x y : ℕ) : RGBA :=
  ⟨b.getD ((y * w + x) * ch) 0, b.getD ((y * w + x) * ch + 1) 0,
   b.getD ((y * w + x) * ch + 2) 0, b.getD ((y * w + x) * ch + 3) 0⟩

/-- Writes the four channel bytes of pure opaque black for flat pixel index
idx into the buffer at address a (the cD writes of restoreBlacks). -/
def writeBlackPx (hp : BufHeap) (a ch idx : ℕ) : BufHeap :=
  heapWrite (heapWrite (heapWrite (heapWrite hp a (idx * ch) 0)
    a (idx * ch + 1) 0) a (idx * ch + 2) 0) a (idx * ch + 3) 255

/-- Buffer-level restoreBlacks: reads the original at address origA, copies
the colorized buffer at address colA into a freshly allocated buffer, then
runs the restoration loop writing black pixels only into the fresh buffer.
Returns the final heap and the address of the output buffer. -/
def restoreBlacksHeap (w h ch origA colA : ℕ) (hp : BufHeap) : BufHeap × ℕ :=
  let orig := bufPix (hp.getD origA []) w ch
  let outA := hp.length
  let hp1 := hp ++ [hp.getD colA []]
  let final := (List.range (w * h)).foldl
    (fun acc idx =>
      if restoreCond w h orig (idx % w) (idx / w) then writeBlackPx acc outA ch idx
      else acc) hp1
  (final, outA)

/-! ## Theorems: Canvas Fitter -/

/-- Any chosen canvas is one of the three candidates. -/
theorem pickApiSize_cases (w h : ℕ) :
    pickApiSize w h = (1024, 1024) ∨ pickApiSize w h = (1024, 1536) ∨
    pickApiSize w h = (1536, 1024) := by
  unfold pickApiSize apiCandidates
  simp only [List.foldl, psStep]
  repeat' split
  all_goals simp

/-- Score of the square canvas for a 1:2 segment. -/
theorem psScore_half_sq (w : ℕ) (hw : 0 < w) :
    psScore w (2 * w) (1024, 1024) = 1 / 2 + (if 2 < (512 : ℚ) / w then (512 : ℚ) / w else 0) := by
  have hw0 : (0 : ℚ) < (w : ℚ) := by exact_mod_cast hw
  have hcast : ((2 * w : ℕ) : ℚ) = 2 * (w : ℚ) := by push_cast; ring
  have h2w : (0 : ℚ) < 2 * (w : ℚ) := by linarith
  unfold psScore
  simp only [hcast]
  push_cast
  have hhalf : (1024 : ℚ) / (2 * (w : ℚ)) = 512 / w := by
    rw [div_eq_div_iff h2w.ne' hw0.ne']; ring
  have hmin : min ((1024 : ℚ) / w) ((1024 : ℚ) / (2 * (w : ℚ))) = 512 / w := by
    rw [hhalf, min_eq_right ((div_le_div_iff_of_pos_right hw0).mpr (by norm_num))]
  rw [hmin]
  have hasp : (w : ℚ) / (2 * (w : ℚ)) = 1 / 2 := by
    rw [div_eq_div_iff h2w.ne' (by norm_num : (2 : ℚ) ≠ 0)]; ring
  rw [hasp]
  have habs : (1024 : ℚ) / 1024 - 1 / 2 = 1 / 2 := by norm_num
  rw [habs, abs_of_nonneg (by norm_num : (0 : ℚ) ≤ 1 / 2)]

/-- Score of the portrait canvas for a 1:2 segment. -/
theorem psScore_half_pt (w : ℕ) (hw : 0 < w) :
    psScore w (2 * w) (1024, 1536) = 1 / 6 + (if 2 < (768 : ℚ) / w then (768 : ℚ) / w else 0) := by
  have hw0 : (0 : ℚ) < (w : ℚ) := by exact_mod_cast hw
  have hcast : ((2 * w : ℕ) : ℚ) = 2 * (w : ℚ) := by push_cast; ring
  have h2w : (0 : ℚ) < 2 * (w : ℚ) := by linarith
  unfold psScore
  simp only [hcast]
  push_cast
  have hhalf : (1536 : ℚ) / (2 * (w : ℚ)) = 768 / w := by
    rw [div_eq_div_iff h2w.ne' hw0.ne']; ring
  have hmin : min ((1024 : ℚ) / w) ((1536 : ℚ) / (2 * (w : ℚ))) = 768 / w := by
    rw [hhalf, min_eq_right ((div_le_div_iff_of_pos_right hw0).mpr (by norm_num))]
  rw [hmin]
  have hasp : (w : ℚ) / (2 * (w : ℚ)) = 1 / 2 := by
    rw [div_eq_div_iff h2w.ne' (by norm_num : (2 : ℚ) ≠ 0)]; ring
  rw [hasp]
  have habs : (1024 : ℚ) / 1536 - 1 / 2 = 1 / 6 := by norm_num
  rw [habs, abs_of_nonneg (by norm_num : (0 : ℚ) ≤ 1 / 6)]

/-- Score of the landscape canvas for a 1:2 segment. -/
theorem psScore_half_ls (w : ℕ) (hw : 0 < w) :
    psScore w (2 * w) (1536, 1024) = 1 + (if 2 < (512 : ℚ) / w then (512 : ℚ) / w else 0) := by
  have hw0 : (0 : ℚ) < (w : ℚ) := by exact_mod_cast hw
  have hcast : ((2 * w : ℕ) : ℚ) = 2 * (w : ℚ) := by push_cast; ring
  have h2w : (0 : ℚ) < 2 * (w : ℚ) := by linarith
  unfold psScore
  simp only [hcast]
  push_cast
  have hhalf : (1024 : ℚ) / (2 * (w : ℚ)) = 512 / w := by
    rw [div_eq_div_iff h2w.ne' hw0.ne']; ring
  have hmin : min ((1536 : ℚ) / w) ((1024 : ℚ) / (2 * (w : ℚ))) = 512 / w := by
    rw [hhalf, min_eq_right ((div_le_div_iff_of_pos_right hw0).mpr (by norm_num))]
  rw [hmin]
  have hasp : (w : ℚ) / (2 * (w : ℚ)) = 1 / 2 := by
    rw [div_eq_div_iff h2w.ne' (by norm_num : (2 : ℚ) ≠ 0)]; ring
  rw [hasp]
  have habs : (1536 : ℚ) / 1024 - 1 / 2 = 1 := by norm_num
  rw [habs, abs_of_nonneg (by norm_num : (0 : ℚ) ≤ 1)]

/-- The portrait canvas wins for a 1:2 segment once no candidate triggers the
upscale penalty, i.e. from width 384 up. -/
theorem pickApiSize_of_half_ratio (w : ℕ) (hw : 384 ≤ w) :
    pickApiSize w (2 * w) = (1024, 1536) := by
  have hw0 : 0 < w := by omega
  have hwq : (384 : ℚ) ≤ (w : ℚ) := by exact_mod_cast hw
  have hsq := psScore_half_sq w hw0
  have hpt := psScore_half_pt w hw0
  have hls := psScore_half_ls w hw0
  have hwpos : (0 : ℚ) < (w : ℚ) := by exact_mod_cast hw0
  have hn1 : ¬ (2 : ℚ) < 512 / (w : ℚ) := by
    rw [not_lt, div_le_iff₀ hwpos]
    linarith
  have hn2 : ¬ (2 : ℚ) < 768 / (w : ℚ) := by
    rw [not_lt, div_le_iff₀ hwpos]
    linarith
  rw [if_neg hn1] at hsq hls
  rw [if_neg hn2] at hpt
  unfold pickApiSize apiCandidates
  simp only [List.foldl, psStep, hsq, hpt, hls]
  norm_num

/-- C8 (as amended): a segment of aspect ratio exactly 0.5 selects the
1024x1536 portrait canvas provided its width is at least 384, i.e. provided
upscaling to the portrait canvas does not exceed the 2x penalty threshold. -/
theorem pickApiSize_half_ratio_portrait (w h : ℕ) (hh : h = 2 * w) (hw : 384 ≤ w) :
    pickApiSize w h = (1024, 1536) := by
  subst hh
  exact pickApiSize_of_half_ratio w hw

/-- The upscale penalty makes the square canvas win for the 1:2 segment
100x200. -/
theorem pickApiSize_100_200 : pickApiSize 100 200 = (1024, 1024) := by
  have he : (200 : ℕ) = 2 * 100 := by norm_num
  have hsq := psScore_half_sq 100 (by norm_num)
  have hpt := psScore_half_pt 100 (by norm_num)
  have hls := psScore_half_ls 100 (by norm_num)
  rw [he]
  unfold pickApiSize apiCandidates
  simp only [List.foldl, psStep, hsq, hpt, hls]
  norm_num

/-- C8 counterexample: the segment 100x200 has aspect ratio exactly 0.5, yet
the size selection chooses the square canvas, not the portrait one. -/
theorem pickApiSize_half_ratio_cex : pickApiSize 100 200 ≠ (1024, 1536) := by
  rw [pickApiSize_100_200]
  decide

/-- Witness for pickApiSize_half_ratio_portrait at the concrete segment
400x800. -/
theorem pickApiSize_half_ratio_portrait_witness : pickApiSize 400 800 = (1024, 1536) :=
  pickApiSize_half_ratio_portrait 400 800 (by norm_num) (by norm_num)

/-- Rounding a rational below a natural bound stays below the bound. -/
theorem jround_toNat_le (q : ℚ) (n : ℕ) (hq : q ≤ n) : (jround q).toNat ≤ n := by
  rw [Int.toNat_le]
  unfold jround
  have h1 : ⌊q + 1 / 2⌋ ≤ ⌊(n : ℚ) + 1 / 2⌋ := Int.floor_le_floor (by linarith)
  have h2 : ⌊(n : ℚ) + 1 / 2⌋ = (n : ℤ) := by
    have h3 : ((n : ℤ) : ℚ) = (n : ℚ) := by push_cast; ring
    rw [← h3, Int.floor_int_add]
    norm_num
  rw [h2] at h1
  exact h1

/-- Characterization of jround by the half-open unit interval. -/
theorem jround_eq (q : ℚ) (n : ℤ) (h1 : (n : ℚ) ≤ q + 1 / 2) (h2 : q + 1 / 2 < n + 1) :
    jround q = n := by
  unfold jround
  rw [Int.floor_eq_iff]
  exact ⟨h1, h2⟩

/-- Evaluation of the full letterbox round trip once the fit parameters are
known to be positive and within the canvas. -/
theorem fitRoundTrip_eval (w h aw ah fitW fitH : ℕ)
    (hc : canvasFit w h = ((aw, ah), (fitW, fitH)))
    (h1 : 1 ≤ fitW) (h2 : 1 ≤ fitH) (h3 : fitW ≤ aw) (h4 : fitH ≤ ah)
    (hw : 0 < w) (hh : 0 < h) :
    fitRoundTrip w h = some (w, h) := by
  have e1 : (0 : ℤ) ≤ (aw : ℤ) - (fitW : ℤ) := by omega
  have e2 : (0 : ℤ) ≤ (ah : ℤ) - (fitH : ℤ) := by omega
  have e3 : fitW + ((aw : ℤ) - (fitW : ℤ)).toNat = aw := by omega
  have e4 : fitH + ((ah : ℤ) - (fitH : ℤ)).toNat = ah := by omega
  unfold fitRoundTrip
  rw [hc]
  simp only [resizeDims, extendDims, extractDims]
  rw [if_pos ⟨h1, h2⟩, Option.some_bind, if_pos ⟨e1, e2⟩, Option.some_bind, e3, e4,
    if_pos ⟨h1, h2, h3, h4⟩, Option.some_bind, if_pos ⟨hw, hh⟩]

/-- C5 (as amended): for every positive-dimension segment whose scaled fit is
nondegenerate (fitW and fitH at least 1), the outbound letterbox stays inside
the chosen canvas (no residual padding or cropping) and the inbound inverse
restores exactly the original dimensions. -/
theorem fitRoundTrip_exact (w h : ℕ) (hw : 0 < w) (hh : 0 < h)
    (hfw : 1 ≤ (canvasFit w h).2.1) (hfh : 1 ≤ (canvasFit w h).2.2) :
    (canvasFit w h).2.1 ≤ (canvasFit w h).1.1 ∧
    (canvasFit w h).2.2 ≤ (canvasFit w h).1.2 ∧
    fitRoundTrip w h = some (w, h) := by
  have hwq : (0 : ℚ) < (w : ℚ) := by exact_mod_cast hw
  have hhq : (0 : ℚ) < (h : ℚ) := by exact_mod_cast hh
  have hfit1 : (canvasFit w h).2.1 ≤ (canvasFit w h).1.1 := by
    have hrfl : (canvasFit w h).2.1 =
        (jround ((w : ℚ) * min (((pickApiSize w h).1 : ℚ) / w)
          (((pickApiSize w h).2 : ℚ) / h))).toNat := rfl
    rw [hrfl]
    apply jround_toNat_le
    have hle : min (((pickApiSize w h).1 : ℚ) / w) (((pickApiSize w h).2 : ℚ) / h) ≤
        ((pickApiSize w h).1 : ℚ) / w := min_le_left _ _
    have hcan : (w : ℚ) * (((pickApiSize w h).1 : ℚ) / w) = ((pickApiSize w h).1 : ℚ) := by
      field_simp
    calc (w : ℚ) * min (((pickApiSize w h).1 : ℚ) / w) (((pickApiSize w h).2 : ℚ) / h)
        ≤ (w : ℚ) * (((pickApiSize w h).1 : ℚ) / w) :=
          mul_le_mul_of_nonneg_left hle (le_of_lt hwq)
      _ = ((pickApiSize w h).1 : ℚ) := hcan
  have hfit2 : (canvasFit w h).2.2 ≤ (canvasFit w h).1.2 := by
    have hrfl : (canvasFit w h).2.2 =
        (jround ((h : ℚ) * min (((pickApiSize w h).1 : ℚ) / w)
          (((pickApiSize w h).2 : ℚ) / h))).toNat := rfl
    rw [hrfl]
    apply jround_toNat_le
    have hle : min (((pickApiSize w h).1 : ℚ) / w) (((pickApiSize w h).2 : ℚ) / h) ≤
        ((pickApiSize w h).2 : ℚ) / h := min_le_right _ _
    have hcan : (h : ℚ) * (((pickApiSize w h).2 : ℚ) / h) = ((pickApiSize w h).2 : ℚ) := by
      field_simp
    calc (h : ℚ) * min (((pickApiSize w h).1 : ℚ) / w) (((pickApiSize w h).2 : ℚ) / h)
        ≤ (h : ℚ) * (((pickApiSize w h).2 : ℚ) / h) :=
          mul_le_mul_of_nonneg_left hle (le_of_lt hhq)
      _ = ((pickApiSize w h).2 : ℚ) := hcan
  refine ⟨hfit1, hfit2, ?_⟩
  exact fitRoundTrip_eval w h (canvasFit w h).1.1 (canvasFit w h).1.2
    (canvasFit w h).2.1 (canvasFit w h).2.2 rfl hfw hfh hfit1 hfit2 hw hh

/-- The selected canvas for the extreme portrait segment 1x4000. -/
theorem pickApiSize_1_4000 : pickApiSize 1 4000 = (1024, 1536) := by
  have s1 : psScore 1 4000 (1024, 1024) = 3999 / 4000 := by
    unfold psScore
    push_cast
    rw [if_neg (by norm_num [min_def]), abs_of_nonneg (by norm_num)]
    norm_num
  have s2 : psScore 1 4000 (1024, 1536) = 7997 / 12000 := by
    unfold psScore
    push_cast
    rw [if_neg (by norm_num [min_def]), abs_of_nonneg (by norm_num)]
    norm_num
  have s3 : psScore 1 4000 (1536, 1024) = 5999 / 4000 := by
    unfold psScore
    push_cast
    rw [if_neg (by norm_num [min_def]), abs_of_nonneg (by norm_num)]
    norm_num
  unfold pickApiSize apiCandidates
  simp only [List.foldl, psStep, s1, s2, s3]
  norm_num

/-- The fit parameters of the segment 1x4000: the scaled width rounds to 0. -/
theorem canvasFit_1_4000 : canvasFit 1 4000 = ((1024, 1536), (0, 1536)) := by
  unfold canvasFit
  rw [pickApiSize_1_4000]
  have hmin : min (((1024 : ℕ) : ℚ) / ((1 : ℕ) : ℚ)) (((1536 : ℕ) : ℚ) / ((4000 : ℕ) : ℚ))
      = 48 / 125 := by
    push_cast
    rw [min_def, if_neg (by norm_num)]
    norm_num
  have hj1 : jround (((1 : ℕ) : ℚ) * (48 / 125)) = 0 := by
    apply jround_eq <;> norm_num
  have hj2 : jround (((4000 : ℕ) : ℚ) * (48 / 125)) = 1536 := by
    apply jround_eq <;> norm_num
  simp only [hmin, hj1, hj2]
  rfl

/-- C5 counterexample: the 1x4000 segment has positive dimensions, but its
scaled width rounds to 0, so the outbound resize is rejected and the round
trip does not reproduce the original dimensions. -/
theorem fitRoundTrip_cex : fitRoundTrip 1 4000 ≠ some (1, 4000) := by
  unfold fitRoundTrip
  rw [canvasFit_1_4000]
  simp [resizeDims]

/-- The fit parameters of the segment 400x800. -/
theorem canvasFit_400_800 : canvasFit 400 800 = ((1024, 1536), (768, 1536)) := by
  unfold canvasFit
  rw [show pickApiSize 400 800 = (1024, 1536) from by
    rw [show (800 : ℕ) = 2 * 400 from by norm_num]
    exact pickApiSize_of_half_ratio 400 (by norm_num)]
  have hmin : min (((1024 : ℕ) : ℚ) / ((400 : ℕ) : ℚ)) (((1536 : ℕ) : ℚ) / ((800 : ℕ) : ℚ))
      = 48 / 25 := by
    push_cast
    rw [min_def, if_neg (by norm_num)]
    norm_num
  have hj1 : jround (((400 : ℕ) : ℚ) * (48 / 25)) = 768 := by
    apply jround_eq <;> norm_num
  have hj2 : jround (((800 : ℕ) : ℚ) * (48 / 25)) = 1536 := by
    apply jround_eq <;> norm_num
  simp only [hmin, hj1, hj2]
  rfl

/-- Witness for fitRoundTrip_exact at the concrete segment 400x800. -/
theorem fitRoundTrip_exact_witness :
    (canvasFit 400 800).2.1 ≤ (canvasFit 400 800).1.1 ∧
    (canvasFit 400 800).2.2 ≤ (canvasFit 400 800).1.2 ∧
    fitRoundTrip 400 800 = some (400, 800) :=
  fitRoundTrip_exact 400 800 (by norm_num) (by norm_num)
    (by rw [canvasFit_400_800]; norm_num) (by rw [canvasFit_400_800]; norm_num)

/-! ## Theorems: retry logic and content classifier -/

/-- A fully white 1x1 segment is not classified blank or text-on-black. -/
theorem isBlankSegment_white_none :
    isBlankSegment ⟨1, 1, fun _ _ => ⟨255, 255, 255, 255⟩⟩ = none := by
  have h1 : segDarkCount ⟨1, 1, fun _ _ => ⟨255, 255, 255, 255⟩⟩ = 0 := by decide
  have h2 : segBrightCount ⟨1, 1, fun _ _ => ⟨255, 255, 255, 255⟩⟩ = 1 := by decide
  simp only [isBlankSegment, h1, h2]
  norm_num

/-- C2 counterexample: a non-transient failure (HTTP 400, no transient
markers) does not abort the run; withRetry signals failure and the
per-segment step falls back to the pre-colorization bitmap. -/
theorem withRetry_nontransient_fallback_cex :
    segmentStep ⟨1, 1, fun _ _ => ⟨255, 255, 255, 255⟩⟩
      (fun _ => Except.error ⟨some 400, false, false⟩) =
      (⟨1, 1, fun _ _ => ⟨255, 255, 255, 255⟩⟩, 1, true) := by
  unfold segmentStep
  rw [isBlankSegment_white_none]
  simp only [Option.isSome_none, Bool.false_eq_true, if_false]
  rfl

/-- C2 (as amended): a non-transient error on the first attempt stops the
retry loop immediately — exactly one attempt is made and withRetry returns
failure — and the segment falls back to its pre-colorization bitmap; the run
continues rather than aborting. -/
theorem withRetry_nontransient_immediate (seg : Segment)
    (svc : ℕ → Except SvcError Segment) (e : SvcError)
    (hb : isBlankSegment seg = none) (h0 : svc 0 = Except.error e)
    (ht : isTransient e = false) :
    withRetry svc = (none, 1) ∧ segmentStep seg svc = (seg, 1, true) := by
  have hw : withRetry svc = (none, 1) := by
    unfold withRetry withRetryGo
    rw [h0]
    simp [ht]
  refine ⟨hw, ?_⟩
  unfold segmentStep
  rw [hb]
  simp only [Option.isSome_none, Bool.false_eq_true, if_false]
  rw [hw]

/-- Witness for withRetry_nontransient_immediate at a concrete white segment
and a service that always fails with HTTP 400. -/
theorem withRetry_nontransient_immediate_witness :
    withRetry (fun _ => (Except.error ⟨some 400, false, false⟩ : Except SvcError Segment)) =
      (none, 1) ∧
    segmentStep ⟨1, 1, fun _ _ => ⟨255, 255, 255, 255⟩⟩
      (fun _ => Except.error ⟨some 400, false, false⟩) =
      (⟨1, 1, fun _ _ => ⟨255, 255, 255, 255⟩⟩, 1, true) :=
  withRetry_nontransient_immediate _ _ ⟨some 400, false, false⟩
    isBlankSegment_white_none rfl (by decide)

/-- C7: a segment whose dark-pixel fraction is at least 0.98 is classified
blank, returned unmodified, and no external attempt is made for it. -/
theorem blank_segment_skipped (s : Segment) (svc : ℕ → Except SvcError Segment)
    (hd : (98 : ℚ) / 100 ≤ (segDarkCount s : ℚ) / ((s.w * s.h : ℕ) : ℚ)) :
    isBlankSegment s = some BlankReason.blank ∧ segmentStep s svc = (s, 0, false) := by
  have hb : isBlankSegment s = some BlankReason.blank := by
    simp only [isBlankSegment]
    rw [if_pos hd]
  refine ⟨hb, ?_⟩
  unfold segmentStep
  rw [hb]
  rfl

/-- Witness for blank_segment_skipped at a fully black 1x1 segment. -/
theorem blank_segment_skipped_witness :
    isBlankSegment ⟨1, 1, fun _ _ => blackPx⟩ = some BlankReason.blank ∧
    segmentStep ⟨1, 1, fun _ _ => blackPx⟩
      (fun _ => Except.ok ⟨1, 1, fun _ _ => blackPx⟩) =
      (⟨1, 1, fun _ _ => blackPx⟩, 0, false) :=
  blank_segment_skipped _ _ (by
    have h1 : segDarkCount ⟨1, 1, fun _ _ => blackPx⟩ = 1 := by decide
    rw [h1]
    norm_num)

/-! ## Theorems: reassembly, re-slicing and the segment merge pass -/

/-- When every recorded slice height equals the configured output height and
the strip is exactly long enough, re-slicing emits one slice per recorded
height with exactly that height. -/
theorem resliceDims_all_output (stripH : ℕ) (heights : List ℕ) :
    ∀ top, (∀ v ∈ heights, v = OUTPUT_H) → stripH = top + heights.sum →
    (resliceDims stripH OUTPUT_W top heights).map Prod.snd = heights := by
  induction heights with
  | nil => intro top _ _; simp [resliceDims]
  | cons a t ih =>
    intro top hh hs
    have ha : a = OUTPUT_H := hh a (List.mem_cons_self a t)
    have hlt : ¬ stripH ≤ top := by
      rw [hs, List.sum_cons]
      have hpos : 0 < a := by rw [ha]; norm_num [OUTPUT_H]
      omega
    rw [resliceDims, if_neg hlt, if_neg (by simp [ha])]
    simp only [List.map_cons]
    rw [ih (top + a) (fun v hv => hh v (List.mem_cons_of_mem a hv))
      (by rw [hs, List.sum_cons]; ring)]

/-- Every slice emitted by the extraction-and-padding pass shows the strip
row at its offset while the strip lasts, and opaque black beyond it. -/
theorem resliceSlices_content (strip : ℕ → ℕ → RGBA) (stripH : ℕ) (heights : List ℕ) :
    ∀ top t sH c, (t, sH, c) ∈ resliceSlices strip stripH top heights →
    ∀ y x, y < sH →
      (t + y < stripH → c y x = strip (t + y) x) ∧ (stripH ≤ t + y → c y x = blackPx) := by
  induction heights with
  | nil => intro top t sH c hmem; simp [resliceSlices] at hmem
  | cons a rest ih =>
    intro top t sH c hmem y x hy
    by_cases hst : stripH ≤ top
    · simp [resliceSlices, hst] at hmem
    · simp only [resliceSlices, if_neg hst, List.mem_cons] at hmem
      rcases hmem with heq | hmem2
      · obtain ⟨h1, h2, h3⟩ : t = top ∧ sH = a ∧
            c = fun y x => if y < min a (stripH - top) then strip (top + y) x else blackPx := by
          simpa [Prod.ext_iff] using heq
        subst h1
        subst h2
        subst h3
        constructor
        · intro hlt
          have hc : y < min sH (stripH - t) := by omega
          simp [hc]
        · intro hge
          have hc : ¬ y < min sH (stripH - t) := by omega
          simp [hc]
      · exact ih (top + a) t sH c hmem2 y x hy

/-- C3 (as amended): when the reassembled strip height equals the sum of the
recorded input slice heights (the reassembler invariant) and the working
dimensions match the configured output dimensions (so the final per-slice
resize is the identity), re-slicing preserves both the slice count and the
total of the slice heights, each emitted slice having exactly its recorded
height; whenever an extraction falls short of the strip, the missing rows of
the emitted slice are opaque black padding. -/
theorem reslice_heights_preserved (heights : List ℕ) (stripW stripH : ℕ)
    (strip : ℕ → ℕ → RGBA) (t sH : ℕ) (c : ℕ → ℕ → RGBA) (y x : ℕ)
    (hw : stripW = OUTPUT_W) (hh : ∀ v ∈ heights, v = OUTPUT_H)
    (hs : stripH = heights.sum) :
    (resliceDims stripH stripW 0 heights).map Prod.snd = heights ∧
    ((resliceDims stripH stripW 0 heights).map Prod.snd).sum = heights.sum ∧
    (resliceDims stripH stripW 0 heights).length = heights.length ∧
    ((t, sH, c) ∈ resliceSlices strip stripH 0 heights → y < sH →
      (t + y < stripH → c y x = strip (t + y) x) ∧ (stripH ≤ t + y → c y x = blackPx)) := by
  subst hw
  have h1 := resliceDims_all_output stripH heights 0 hh (by omega)
  refine ⟨h1, by rw [h1], ?_, ?_⟩
  · have h2 := congrArg List.length h1
    simpa using h2
  · intro hmem hy
    exact resliceSlices_content strip stripH heights 0 t sH c hmem y x hy

/-- C3 counterexample: one input slice of height 1000 at the default output
size 800x1280: the final resize changes the slice height to 1280, so the sum
of output slice heights differs from the sum of input slice heights. -/
theorem reslice_sum_cex :
    ((resliceDims 1000 800 0 [1000]).map Prod.snd).sum ≠ ([1000] : List ℕ).sum := by
  decide

/-- Witness for reslice_heights_preserved with two 800x1280 slices and an
all-black strip of height 2560. -/
theorem reslice_heights_preserved_witness :
    (resliceDims 2560 800 0 [1280, 1280]).map Prod.snd = [1280, 1280] ∧
    ((resliceDims 2560 800 0 [1280, 1280]).map Prod.snd).sum = ([1280, 1280] : List ℕ).sum ∧
    (resliceDims 2560 800 0 [1280, 1280]).length = ([1280, 1280] : List ℕ).length ∧
    ((0, 1280, fun _ _ => blackPx) ∈
        resliceSlices (fun _ _ => blackPx) 2560 0 [1280, 1280] → 0 < 1280 →
      (0 + 0 < 2560 → blackPx = blackPx) ∧ (2560 ≤ 0 + 0 → blackPx = blackPx)) :=
  reslice_heights_preserved [1280, 1280] 800 2560 (fun _ _ => blackPx) 0 1280
    (fun _ _ => blackPx) 0 0 (by decide) (by decide) (by decide)

/-- C4: the merge pass of splitAtPoints can drop pixel rows entirely. With
totalH = 280 and cuts [200, 240], the two trailing 40-row segments chain-merge
into an element that was already dropped, so only rows [0, 200) are emitted
and rows 200..279 belong to no segment; a lone undersized segment is dropped
outright rather than kept. -/
theorem splitAtPoints_drops_rows :
    splitAtPoints 280 [200, 240] = [⟨0, 200, 200⟩] ∧
    ((splitAtPoints 280 [200, 240]).map Seg.height).sum = 200 ∧
    splitAtPoints 50 [] = [] := by
  decide

/-! ## Theorems: Split-Point Detector -/

/-- Invariant-based specification of the run-collapsing loop: on a sorted
list whose remaining part holds exactly the safe rows above the current run,
every emitted pair is a maximal run of members of l. -/
theorem runsGo_spec (l : List ℕ) :
    ∀ rest start cur,
    (∀ z, start ≤ z → z ≤ cur → z ∈ l) →
    (start = 0 ∨ (start - 1) ∉ l) →
    (∀ z, z ∈ rest ↔ (z ∈ l ∧ cur < z)) →
    rest.Pairwise (· < ·) →
    start ≤ cur →
    ∀ p ∈ runsGo start cur rest,
      p.1 ≤ p.2 ∧ (∀ z, p.1 ≤ z → z ≤ p.2 → z ∈ l) ∧
      (p.1 = 0 ∨ (p.1 - 1) ∉ l) ∧ (p.2 + 1) ∉ l := by
  intro rest
  induction rest with
  | nil =>
    intro start cur inv1 inv2 inv3 _ inv5 p hp
    simp only [runsGo, List.mem_singleton] at hp
    subst hp
    refine ⟨inv5, inv1, inv2, ?_⟩
    intro hmem
    have h1 := (inv3 (cur + 1)).mpr ⟨hmem, by omega⟩
    simp at h1
  | cons y rest ih =>
    intro start cur inv1 inv2 inv3 inv4 inv5 p hp
    have hyl : y ∈ l ∧ cur < y := (inv3 y).mp (List.mem_cons_self y rest)
    have hrest_lt : ∀ z ∈ rest, y < z := (List.pairwise_cons.mp inv4).1
    have hrest_pw : rest.Pairwise (· < ·) := (List.pairwise_cons.mp inv4).2
    by_cases hy : y = cur + 1
    · rw [runsGo, if_pos hy] at hp
      refine ih start y ?_ inv2 ?_ hrest_pw (by omega) p hp
      · intro z h1 h2
        rcases Nat.lt_or_ge z y with h | h
        · exact inv1 z h1 (by omega)
        · have hz : z = y := by omega
          subst hz
          exact hyl.1
      · intro z
        constructor
        · intro hz
          exact ⟨((inv3 z).mp (List.mem_cons_of_mem y hz)).1, hrest_lt z hz⟩
        · rintro ⟨hzl, hzy⟩
          have hz : z ∈ y :: rest := (inv3 z).mpr ⟨hzl, by omega⟩
          rcases List.mem_cons.mp hz with h2 | h2
          · omega
          · exact h2
    · rw [runsGo, if_neg hy] at hp
      rcases List.mem_cons.mp hp with h0 | hp2
      · subst h0
        refine ⟨inv5, inv1, inv2, ?_⟩
        intro hmem
        have h1 : cur + 1 ∈ y :: rest := (inv3 (cur + 1)).mpr ⟨hmem, by omega⟩
        rcases List.mem_cons.mp h1 with h2 | h2
        · exact hy h2.symm
        · have h3 := hrest_lt _ h2
          omega
      · refine ih y y ?_ ?_ ?_ hrest_pw (le_refl y) p hp2
        · intro z h1 h2
          have hz : z = y := by omega
          subst hz
          exact hyl.1
        · by_cases hy0 : y = 0
          · exact Or.inl hy0
          · refine Or.inr ?_
            intro hmem
            rcases Nat.lt_or_ge cur (y - 1) with h | h
            · have h1 : y - 1 ∈ y :: rest := (inv3 (y - 1)).mpr ⟨hmem, h⟩
              rcases List.mem_cons.mp h1 with h2 | h2
              · omega
              · have h3 := hrest_lt _ h2
                omega
            · have h4 := hyl.2
              omega
        · intro z
          constructor
          · intro hz
            exact ⟨((inv3 z).mp (List.mem_cons_of_mem y hz)).1, hrest_lt z hz⟩
          · rintro ⟨hzl, hzy⟩
            have h4 := hyl.2
            have hz : z ∈ y :: rest := (inv3 z).mpr ⟨hzl, by omega⟩
            rcases List.mem_cons.mp hz with h2 | h2
            · omega
            · exact h2

/-- Every run emitted by groupRuns on a sorted list is a maximal run of
consecutive members. -/
theorem groupRuns_spec (l : List ℕ) (hpw : l.Pairwise (· < ·)) :
    ∀ p ∈ groupRuns l,
      p.1 ≤ p.2 ∧ (∀ z, p.1 ≤ z → z ≤ p.2 → z ∈ l) ∧
      (p.1 = 0 ∨ (p.1 - 1) ∉ l) ∧ (p.2 + 1) ∉ l := by
  cases l with
  | nil => intro p hp; simp [groupRuns] at hp
  | cons y rest =>
    intro p hp
    have h1 := List.pairwise_cons.mp hpw
    refine runsGo_spec (y :: rest) rest y y ?_ ?_ ?_ h1.2 (le_refl y) p hp
    · intro z hz1 hz2
      have hz : z = y := by omega
      rw [hz]
      exact List.mem_cons_self y rest
    · by_cases hy0 : y = 0
      · exact Or.inl hy0
      · refine Or.inr ?_
        intro hmem
        rcases List.mem_cons.mp hmem with h2 | h2
        · omega
        · have h3 := h1.1 _ h2
          omega
    · intro z
      constructor
      · intro hz
        exact ⟨List.mem_cons_of_mem y hz, h1.1 z hz⟩
      · rintro ⟨hzl, hzy⟩
        rcases List.mem_cons.mp hzl with h2 | h2
        · omega
        · exact h2

/-- The safe-row list is sorted in strictly increasing order. -/
theorem safeRowsList_sorted (w h : ℕ) (pix : ℕ → ℕ → RGBA) :
    (safeRowsList w h pix).Pairwise (· < ·) :=
  List.Pairwise.filter _ (List.pairwise_lt_range h)

/-- Membership in the safe-row list. -/
theorem mem_safeRowsList (w h : ℕ) (pix : ℕ → ℕ → RGBA) (y : ℕ) :
    y ∈ safeRowsList w h pix ↔ (y < h ∧ isSafeRow w pix y = true) := by
  unfold safeRowsList
  rw [List.mem_filter, List.mem_range]

/-- C6: every emitted split candidate is a maximal run of consecutive safe
rows — all its rows are inside the image and safe (dark fraction at least
1 − edgeTolerance), and the rows just outside it are unsafe or outside the
image — its band height is at least the minimum gap height and equals the
run length, and its midpoint lies between startRow and endRow inclusive. -/
theorem detectSafeSplitPoints_spec (w h : ℕ) (pix : ℕ → ℕ → RGBA) (g : Gap) (y : ℕ)
    (hg : g ∈ detectSafeSplitPoints w h pix) :
    MIN_GAP_HEIGHT ≤ g.height ∧
    g.height = g.endRow - g.startRow + 1 ∧
    g.startRow ≤ g.midPoint ∧ g.midPoint ≤ g.endRow ∧
    g.startRow ≤ g.endRow ∧ g.endRow < h ∧
    (g.startRow ≤ y → y ≤ g.endRow →
      y < h ∧ 1 - EDGE_TOLERANCE ≤ (rowDarkCount w pix y : ℚ) / w) ∧
    (g.startRow = 0 ∨
      ¬ (1 - EDGE_TOLERANCE ≤ (rowDarkCount w pix (g.startRow - 1) : ℚ) / w)) ∧
    (g.endRow + 1 = h ∨
      ¬ (1 - EDGE_TOLERANCE ≤ (rowDarkCount w pix (g.endRow + 1) : ℚ) / w)) := by
  unfold detectSafeSplitPoints at hg
  rw [List.mem_filterMap] at hg
  obtain ⟨p, hp, hpg⟩ := hg
  by_cases hcond : MIN_GAP_HEIGHT ≤ p.2 - p.1 + 1
  · rw [if_pos hcond] at hpg
    obtain rfl := Option.some.inj hpg
    dsimp only
    obtain ⟨hle, hall, hstart, hend⟩ :=
      groupRuns_spec _ (safeRowsList_sorted w h pix) p hp
    have hmem : ∀ z, p.1 ≤ z → z ≤ p.2 → z < h ∧ isSafeRow w pix z = true := by
      intro z h1 h2
      exact (mem_safeRowsList w h pix z).mp (hall z h1 h2)
    have hendh : p.2 < h := (hmem p.2 hle (le_refl _)).1
    refine ⟨hcond, rfl, by omega, by omega, hle, hendh, ?_, ?_, ?_⟩
    · intro h1 h2
      have hz := hmem y h1 h2
      refine ⟨hz.1, ?_⟩
      have h3 := hz.2
      unfold isSafeRow at h3
      exact of_decide_eq_true h3
    · rcases hstart with h0 | hnm
      · exact Or.inl h0
      · refine Or.inr ?_
        intro hcontra
        apply hnm
        rw [mem_safeRowsList]
        refine ⟨by omega, ?_⟩
        unfold isSafeRow
        exact decide_eq_true hcontra
    · by_cases hEq : p.2 + 1 = h
      · exact Or.inl hEq
      · refine Or.inr ?_
        intro hcontra
        apply hend
        rw [mem_safeRowsList]
        refine ⟨by omega, ?_⟩
        unfold isSafeRow
        exact decide_eq_true hcontra
  · rw [if_neg hcond] at hpg
    exact absurd hpg (by simp)

/-- On a 1x30 all-black bitmap every row is safe. -/
theorem safeRowsList_all_black :
    safeRowsList 1 30 (fun _ _ => blackPx) = List.range 30 := by
  unfold safeRowsList
  rw [List.filter_eq_self]
  intro y _
  unfold isSafeRow
  apply decide_eq_true
  have h1 : rowDarkCount 1 (fun _ _ => blackPx) y = 1 := by
    unfold rowDarkCount
    rw [show List.range 1 = [0] from rfl]
    simp [classifierDarkPx, blackPx, DARK_THRESHOLD]
  rw [h1]
  norm_num [EDGE_TOLERANCE]

/-- The detector output on the 1x30 all-black bitmap. -/
theorem detectSafeSplitPoints_all_black :
    detectSafeSplitPoints 1 30 (fun _ _ => blackPx) = [⟨0, 29, 14, 30⟩] := by
  unfold detectSafeSplitPoints
  rw [safeRowsList_all_black]
  decide

/-- Witness for detectSafeSplitPoints_spec at the single candidate detected
on a 1x30 all-black bitmap, probing its midpoint row. -/
theorem detectSafeSplitPoints_spec_witness :
    MIN_GAP_HEIGHT ≤ 30 ∧
    (30 : ℕ) = 29 - 0 + 1 ∧
    (0 : ℕ) ≤ 14 ∧ (14 : ℕ) ≤ 29 ∧
    (0 : ℕ) ≤ 29 ∧ (29 : ℕ) < 30 ∧
    ((0 : ℕ) ≤ 14 → (14 : ℕ) ≤ 29 →
      14 < 30 ∧ 1 - EDGE_TOLERANCE ≤
        (rowDarkCount 1 (fun _ _ => blackPx) 14 : ℚ) / 1) ∧
    ((0 : ℕ) = 0 ∨
      ¬ (1 - EDGE_TOLERANCE ≤ (rowDarkCount 1 (fun _ _ => blackPx) (0 - 1) : ℚ) / 1)) ∧
    ((29 : ℕ) + 1 = 30 ∨
      ¬ (1 - EDGE_TOLERANCE ≤ (rowDarkCount 1 (fun _ _ => blackPx) (29 + 1) : ℚ) / 1)) :=
  detectSafeSplitPoints_spec 1 30 (fun _ _ => blackPx) ⟨0, 29, 14, 30⟩ 14
    (by rw [detectSafeSplitPoints_all_black]; exact List.mem_singleton.mpr rfl)

/-! ## Theorems: Black Restoration Engine -/

/-- Splitting off the last column of a rectangle count. -/
theorem countRect_succ_right (d : ℕ → ℕ → Bool) (x y : ℕ) :
    countRect d x (y + 1) =
      countRect d x y + ∑ i ∈ Finset.range x, (if d i y then (1 : ℤ) else 0) := by
  unfold countRect
  rw [← Finset.sum_add_distrib]
  apply Finset.sum_congr rfl
  intro i _
  rw [Finset.sum_range_succ]

/-- The summed-area table of restoreBlacks computes the rectangle counts. -/
theorem satF_eq_countRect (d : ℕ → ℕ → Bool) (x y : ℕ) :
    satF d x y = countRect d x y := by
  induction x, y using satF.induct d with
  | case1 y => simp [satF, countRect]
  | case2 x => simp [satF, countRect]
  | case3 x y ih1 ih2 ih3 =>
    rw [satF, ih1, ih2, ih3]
    rw [countRect_succ_right d (x + 1) y, countRect_succ_right d x y]
    rw [Finset.sum_range_succ]
    ring

/-- Inclusion-exclusion: four rectangle counts give the count of dark cells
in a window. -/
theorem countRect_window (d : ℕ → ℕ → Bool) (x1 y1 X Y : ℕ) (hx : x1 ≤ X) (hy : y1 ≤ Y) :
    countRect d X Y - countRect d X y1 - countRect d x1 Y + countRect d x1 y1 =
      (((Finset.Ico x1 X ×ˢ Finset.Ico y1 Y).filter (fun p => d p.1 p.2 = true)).card : ℤ) := by
  have hcol : ∀ a, countRect d a Y - countRect d a y1 =
      ∑ i ∈ Finset.range a, ∑ j ∈ Finset.Ico y1 Y, (if d i j then (1 : ℤ) else 0) := by
    intro a
    unfold countRect
    rw [← Finset.sum_sub_distrib]
    apply Finset.sum_congr rfl
    intro i _
    rw [Finset.sum_Ico_eq_sub _ hy]
  have houter : countRect d X Y - countRect d X y1 - (countRect d x1 Y - countRect d x1 y1) =
      ∑ i ∈ Finset.Ico x1 X, ∑ j ∈ Finset.Ico y1 Y, (if d i j then (1 : ℤ) else 0) := by
    rw [hcol X, hcol x1, Finset.sum_Ico_eq_sub _ hx]
  calc countRect d X Y - countRect d X y1 - countRect d x1 Y + countRect d x1 y1
      = countRect d X Y - countRect d X y1 - (countRect d x1 Y - countRect d x1 y1) := by
        ring
    _ = ∑ i ∈ Finset.Ico x1 X, ∑ j ∈ Finset.Ico y1 Y, (if d i j then (1 : ℤ) else 0) :=
        houter
    _ = ∑ p ∈ Finset.Ico x1 X ×ˢ Finset.Ico y1 Y, (if d p.1 p.2 then (1 : ℤ) else 0) := by
        rw [← Finset.sum_product']
    _ = (((Finset.Ico x1 X ×ˢ Finset.Ico y1 Y).filter (fun p => d p.1 p.2 = true)).card : ℤ) := by
        rw [Finset.sum_boole]

/-- The summed-area-table local density equals the directly counted dark
fraction of the clamped window. -/
theorem localDensity_eq_spec (w h : ℕ) (orig : ℕ → ℕ → RGBA) (cx cy : ℕ)
    (hx : cx < w) (hy : cy < h) :
    localDensity w h orig cx cy = specLocalDensity w h orig cx cy := by
  unfold localDensity specLocalDensity localWindow
  dsimp only
  have hx1 : cx - LOCAL_CHECK_RADIUS ≤ min (w - 1) (cx + LOCAL_CHECK_RADIUS) + 1 := by
    omega
  have hy1 : cy - LOCAL_CHECK_RADIUS ≤ min (h - 1) (cy + LOCAL_CHECK_RADIUS) + 1 := by
    omega
  rw [satF_eq_countRect, satF_eq_countRect, satF_eq_countRect, satF_eq_countRect,
    countRect_window _ _ _ _ _ hx1 hy1]
  rw [Int.cast_natCast]

/-- Marked pixels stay marked across a saturation step. -/
theorem ecStep_subset (w h : ℕ) (d : ℕ → Bool) (s : Finset ℕ) : s ⊆ ecStep w h d s := by
  unfold ecStep
  exact Finset.subset_union_left

/-- A saturation step stays inside the index range. -/
theorem ecStep_range (w h : ℕ) (d : ℕ → Bool) (s : Finset ℕ)
    (hs : s ⊆ Finset.range (w * h)) : ecStep w h d s ⊆ Finset.range (w * h) := by
  unfold ecStep
  exact Finset.union_subset hs (Finset.filter_subset _ _)

/-- All flood-fill iterates stay inside the index range. -/
theorem ecIter_range (w h : ℕ) (d : ℕ → Bool) (k : ℕ) :
    (ecStep w h d)^[k] (ecSeeds w h d) ⊆ Finset.range (w * h) := by
  induction k with
  | zero =>
    simp only [Function.iterate_zero_apply]
    exact Finset.filter_subset _ _
  | succ k ih =>
    rw [Function.iterate_succ_apply']
    exact ecStep_range w h d _ ih

/-- The seeds are contained in every flood-fill iterate. -/
theorem ecSeeds_subset_iter (w h : ℕ) (d : ℕ → Bool) (k : ℕ) :
    ecSeeds w h d ⊆ (ecStep w h d)^[k] (ecSeeds w h d) := by
  induction k with
  | zero => simp
  | succ k ih =>
    rw [Function.iterate_succ_apply']
    exact ih.trans (ecStep_subset w h d _)

/-- Once two consecutive flood-fill iterates agree, all later iterates
agree with them. -/
theorem ecIter_stable (w h : ℕ) (d : ℕ → Bool) (k : ℕ)
    (hk : (ecStep w h d)^[k + 1] (ecSeeds w h d) = (ecStep w h d)^[k] (ecSeeds w h d)) :
    ∀ m, k ≤ m → (ecStep w h d)^[m] (ecSeeds w h d) = (ecStep w h d)^[k] (ecSeeds w h d) := by
  intro m
  induction m with
  | zero =>
    intro hm
    have h0 : k = 0 := by omega
    rw [h0]
  | succ m ih =>
    intro hm
    rcases Nat.lt_or_ge k (m + 1) with hlt | hge
    · have hkm : k ≤ m := by omega
      rw [Function.iterate_succ_apply', ih hkm,
        ← Function.iterate_succ_apply' (ecStep w h d) k (ecSeeds w h d), hk]
    · have he : k = m + 1 := by omega
      rw [he]

/-- While the flood fill has not stabilized, each iterate adds at least one
new index. -/
theorem ecIter_card (w h : ℕ) (d : ℕ → Bool) (n : ℕ)
    (hne : ∀ k < n,
      (ecStep w h d)^[k + 1] (ecSeeds w h d) ≠ (ecStep w h d)^[k] (ecSeeds w h d)) :
    n ≤ ((ecStep w h d)^[n] (ecSeeds w h d)).card := by
  induction n with
  | zero => simp
  | succ n ih =>
    have h1 : n ≤ ((ecStep w h d)^[n] (ecSeeds w h d)).card :=
      ih (fun k hk => hne k (by omega))
    have h2 : (ecStep w h d)^[n] (ecSeeds w h d) ⊆ (ecStep w h d)^[n + 1] (ecSeeds w h d) := by
      rw [Function.iterate_succ_apply']
      exact ecStep_subset w h d _
    have h3 : (ecStep w h d)^[n] (ecSeeds w h d) ≠ (ecStep w h d)^[n + 1] (ecSeeds w h d) :=
      fun he => hne n (by omega) he.symm
    have h4 := Finset.card_lt_card (ssubset_of_subset_of_ne h2 h3)
    omega

/-- The flood-fill result is a fixpoint of the saturation step: w·h
iterations saturate. -/
theorem ecStep_fix (w h : ℕ) (d : ℕ → Bool) :
    ecStep w h d (edgeSet w h d) = edgeSet w h d := by
  unfold edgeSet
  rw [← Function.iterate_succ_apply' (ecStep w h d) (w * h) (ecSeeds w h d)]
  by_contra hne
  have hall : ∀ k ≤ w * h,
      (ecStep w h d)^[k + 1] (ecSeeds w h d) ≠ (ecStep w h d)^[k] (ecSeeds w h d) := by
    intro k hk heq
    have h1 := ecIter_stable w h d k heq (w * h) hk
    have h2 := ecIter_stable w h d k heq (w * h + 1) (by omega)
    exact hne (h2.trans h1.symm)
  have hg := ecIter_card w h d (w * h + 1) (fun k hk => hall k (by omega))
  have hb := Finset.card_le_card (ecIter_range w h d (w * h + 1))
  rw [Finset.card_range] at hb
  omega

/-- Everything the flood fill marks is edge-connected through dark pixels. -/
theorem edgeSet_sound (w h : ℕ) (d : ℕ → Bool) (k : ℕ) :
    ∀ i ∈ (ecStep w h d)^[k] (ecSeeds w h d), EdgeConn w h d i := by
  induction k with
  | zero =>
    intro i hi
    simp only [Function.iterate_zero_apply] at hi
    unfold ecSeeds at hi
    rw [Finset.mem_filter, Finset.mem_range] at hi
    exact EdgeConn.base i hi.1 hi.2.1 hi.2.2
  | succ k ih =>
    intro i hi
    rw [Function.iterate_succ_apply'] at hi
    unfold ecStep at hi
    rcases Finset.mem_union.mp hi with h1 | h1
    · exact ih i h1
    · rw [Finset.mem_filter, Finset.mem_range] at h1
      obtain ⟨hlt, hd, j, hj, hjs⟩ := h1
      exact EdgeConn.step i j (ih j hjs) hlt hd hj

/-- Everything edge-connected through dark pixels is marked by the flood
fill. -/
theorem edgeSet_complete (w h : ℕ) (d : ℕ → Bool) (i : ℕ) (hi : EdgeConn w h d i) :
    i ∈ edgeSet w h d := by
  induction hi with
  | base i hlt hb hd =>
    apply ecSeeds_subset_iter w h d (w * h)
    unfold ecSeeds
    rw [Finset.mem_filter, Finset.mem_range]
    exact ⟨hlt, hb, hd⟩
  | step i j hconn hlt hd hnb ih =>
    rw [show edgeSet w h d = ecStep w h d (edgeSet w h d) from (ecStep_fix w h d).symm]
    unfold ecStep
    apply Finset.mem_union_right
    rw [Finset.mem_filter, Finset.mem_range]
    exact ⟨hlt, hd, j, hnb, ih⟩

/-- The flood fill computes exactly the pixels 4-connected to the border
through dark pixels. -/
theorem edgeSet_iff (w h : ℕ) (d : ℕ → Bool) (i : ℕ) :
    i ∈ edgeSet w h d ↔ EdgeConn w h d i :=
  ⟨fun hi => edgeSet_sound w h d (w * h) i hi, edgeSet_complete w h d i⟩

/-- The embedded restoration test agrees with the declarative contract for
in-bounds pixels. -/
theorem restoreCond_iff_spec (w h : ℕ) (orig : ℕ → ℕ → RGBA) (x y : ℕ)
    (hx : x < w) (hy : y < h) :
    restoreCond w h orig x y ↔ specRestoreCond w h orig x y := by
  unfold restoreCond specRestoreCond
  rw [localDensity_eq_spec w h orig x y hx hy, edgeSet_iff]
  simp only [darkAt, decide_eq_true_eq]

/-- C1: inside the image, a pixel of the output is set to pure opaque black
when it satisfies the declarative restoration contract — true-black in the
original, local dark density at least 0.70, and edge-connected through dark
pixels or within the bubble radius of a white pixel — and any pixel not
satisfying it keeps the colorized value exactly. -/
theorem restoreBlacks_spec (w h : ℕ) (orig col : ℕ → ℕ → RGBA) (x y : ℕ)
    (hx : x < w) (hy : y < h) :
    (specRestoreCond w h orig x y → restoreBlacks w h orig col x y = blackPx) ∧
    (¬ specRestoreCond w h orig x y → restoreBlacks w h orig col x y = col x y) := by
  have hiff := restoreCond_iff_spec w h orig x y hx hy
  constructor
  · intro hs
    unfold restoreBlacks
    rw [if_pos ⟨hx, hy, hiff.mpr hs⟩]
  · intro hs
    unfold restoreBlacks
    rw [if_neg (fun hc => hs (hiff.mp hc.2.2))]

/-- Witness for restoreBlacks_spec at the corner pixel of a 2x2 all-black
original against a colorized pixel value (10, 20, 30, 40). -/
theorem restoreBlacks_spec_witness :
    (specRestoreCond 2 2 (fun _ _ => blackPx) 0 0 →
      restoreBlacks 2 2 (fun _ _ => blackPx) (fun _ _ => ⟨10, 20, 30, 40⟩) 0 0 = blackPx) ∧
    (¬ specRestoreCond 2 2 (fun _ _ => blackPx) 0 0 →
      restoreBlacks 2 2 (fun _ _ => blackPx) (fun _ _ => ⟨10, 20, 30, 40⟩) 0 0 =
        ⟨10, 20, 30, 40⟩) :=
  restoreBlacks_spec 2 2 (fun _ _ => blackPx) (fun _ _ => ⟨10, 20, 30, 40⟩) 0 0
    (by norm_num) (by norm_num)

/-- C9: the Black Restoration Engine is idempotent in its colorized
argument — the restoration mask depends only on the pre-colorization
original, so restoring an already-restored image changes nothing. -/
theorem restoreBlacks_idempotent (w h : ℕ) (orig col : ℕ → ℕ → RGBA) (x y : ℕ) :
    restoreBlacks w h orig (restoreBlacks w h orig col) x y =
      restoreBlacks w h orig col x y := by
  simp only [restoreBlacks]
  by_cases hc : x < w ∧ y < h ∧ restoreCond w h orig x y
  · simp only [if_pos hc]
  · simp only [if_neg hc]

/-- Writing one byte into the buffer at one address leaves every other
address unchanged. -/
theorem heapWrite_getD_ne (hp : BufHeap) (a off v b : ℕ) (hne : b ≠ a) :
    (heapWrite hp a off v).getD b [] = hp.getD b [] := by
  unfold heapWrite
  rw [List.getD_eq_getElem?_getD, List.getD_eq_getElem?_getD,
    List.getElem?_set_ne (fun he => hne he.symm), ← List.getD_eq_getElem?_getD]

/-- Writing a black pixel into the buffer at one address leaves every other
address unchanged. -/
theorem writeBlackPx_getD_ne (hp : BufHeap) (a ch idx b : ℕ) (hne : b ≠ a) :
    (writeBlackPx hp a ch idx).getD b [] = hp.getD b [] := by
  unfold writeBlackPx
  rw [heapWrite_getD_ne _ _ _ _ _ hne, heapWrite_getD_ne _ _ _ _ _ hne,
    heapWrite_getD_ne _ _ _ _ _ hne, heapWrite_getD_ne _ _ _ _ _ hne]

/-- The restoration write loop, which only ever writes to address a, leaves
every other address unchanged. -/
theorem foldl_writes_getD_ne (cond : ℕ → Prop) [DecidablePred cond] (ch a b : ℕ)
    (hne : b ≠ a) (l : List ℕ) :
    ∀ hp : BufHeap,
      (l.foldl (fun acc idx => if cond idx then writeBlackPx acc a ch idx else acc) hp).getD b []
        = hp.getD b [] := by
  induction l with
  | nil => intro hp; rfl
  | cons e t ih =>
    intro hp
    rw [List.foldl_cons, ih]
    by_cases hc : cond e
    · rw [if_pos hc, writeBlackPx_getD_ne _ _ _ _ _ hne]
    · rw [if_neg hc]

/-- C10: the buffer-level restoration mutates neither input buffer — all
corrections go into the freshly allocated copy of the colorized buffer, so
after the call the original-segment and colorized-segment buffers are
byte-for-byte unchanged. -/
theorem restoreBlacksHeap_frame (w h ch origA colA : ℕ) (hp : BufHeap)
    (hA : origA < hp.length) (hB : colA < hp.length) :
    ((restoreBlacksHeap w h ch origA colA hp).1).getD origA [] = hp.getD origA [] ∧
    ((restoreBlacksHeap w h ch origA colA hp).1).getD colA [] = hp.getD colA [] := by
  unfold restoreBlacksHeap
  dsimp only
  constructor
  · rw [foldl_writes_getD_ne _ _ _ origA (by omega) _ _,
      List.getD_eq_getElem?_getD, List.getD_eq_getElem?_getD,
      List.getElem?_append_left hA, ← List.getD_eq_getElem?_getD]
  · rw [foldl_writes_getD_ne _ _ _ colA (by omega) _ _,
      List.getD_eq_getElem?_getD, List.getD_eq_getElem?_getD,
      List.getElem?_append_left hB, ← List.getD_eq_getElem?_getD]

/-- Witness for restoreBlacksHeap_frame on a concrete two-buffer heap
holding a 1x1 original and a 1x1 colorized segment. -/
theorem restoreBlacksHeap_frame_witness :
    ((restoreBlacksHeap 1 1 4 0 1 [[0, 0, 0, 255], [9, 9, 9, 9]]).1).getD 0 [] =
      ([[0, 0, 0, 255], [9, 9, 9, 9]] : BufHeap).getD 0 [] ∧
    ((restoreBlacksHeap 1 1 4 0 1 [[0, 0, 0, 255], [9, 9, 9, 9]]).1).getD 1 [] =
      ([[0, 0, 0, 255], [9, 9, 9, 9]] : BufHeap).getD 1 [] :=
  restoreBlacksHeap_frame 1 1 4 0 1 [[0, 0, 0, 255], [9, 9, 9, 9]]
    (by norm_num) (by norm_num)
